import Mathlib

/-!
Verification development for a forum-scraping pipeline.

The definitions below are a shallow embedding of the pure text-processing
and sequencing logic of the scraper source (`scrape.ts` / its extended
variant): line cleaning, author inference, reply reconciliation, the
URL-keyed dedup store, the content-reveal convergence loop, and the
per-discussion driver.  Page access (DOM queries, clicks, navigation) is an
external collaborator and is modelled abstractly where a claim needs it.
-/

/-- ASCII whitespace recognized by the JavaScript regex class `\s`
(restricted to the ASCII range; the scraped inputs are ASCII). -/
def isSpaceChar (c : Char) : Bool :=
  c == ' ' || c == '\t' || c == '\n' || c == '\r' || c == '\x0b' || c == '\x0c'

/-- The JavaScript word-character class `\w`, i.e. `[A-Za-z0-9_]`. -/
def isWordChar (c : Char) : Bool :=
  c.isAlpha || c.isDigit || c == '_'

/-- Characters allowed in an inferred author token after the first letter:
`[A-Za-z0-9_\-]`. -/
def isWordLikeChar (c : Char) : Bool :=
  isWordChar c || c == '-'

/-- The separator class `[\s,:-]` of the author-inference regex. -/
def isSepChar (c : Char) : Bool :=
  isSpaceChar c || c == ',' || c == ':' || c == '-'

/-- Characters matched by the `[\r\n\t]` class of `normalizeWhitespace`. -/
def isCrlfTabChar (c : Char) : Bool :=
  c == '\r' || c == '\n' || c == '\t'

/-- JavaScript `String.prototype.trim` on a character list. -/
def trimChars (l : List Char) : List Char :=
  ((l.dropWhile isSpaceChar).reverse.dropWhile isSpaceChar).reverse

/-- JavaScript `String.prototype.trim`. -/
def trimString (s : String) : String :=
  String.mk (trimChars s.data)

/-- Split on the regex `/\r?\n/`: every `"\n"` or `"\r\n"` is a separator;
a lone `'\r'` is ordinary text.  Mirrors `raw.split(/\r?\n/)`. -/
def splitLinesAux : List Char → List Char → List (List Char)
  | [], acc => [acc.reverse]
  | [c], acc =>
    if c == '\n' then [acc.reverse, []] else [(c :: acc).reverse]
  | c :: d :: cs, acc =>
    if c == '\n' then acc.reverse :: splitLinesAux (d :: cs) []
    else if c == '\r' && d == '\n' then acc.reverse :: splitLinesAux cs []
    else splitLinesAux (d :: cs) (c :: acc)

def splitLines (l : List Char) : List (List Char) :=
  splitLinesAux l []

/-- Join a list of lines with a single separator character; mirrors
`Array.prototype.join` with a one-character separator. -/
def joinWith (sep : Char) : List (List Char) → List Char
  | [] => []
  | [l] => l
  | l :: l2 :: ls => l ++ sep :: joinWith sep (l2 :: ls)

/-- Does `needle` occur as a prefix of `hay` (character-exact)? -/
def startsWithSeq : List Char → List Char → Bool
  | [], _ => true
  | _ :: _, [] => false
  | a :: as, b :: bs => a == b && startsWithSeq as bs

/-- Does the predicate hold at some suffix position of the list?  Mirrors a
regex search (the empty suffix at the end is also tried). -/
def searchAnyPos (p : List Char → Bool) : List Char → Bool
  | [] => p []
  | c :: cs => p (c :: cs) || searchAnyPos p cs

/-- Substring test, mirrors `String.prototype.includes`. -/
def containsSeq (needle : List Char) (hay : List Char) : Bool :=
  searchAnyPos (startsWithSeq needle) hay

/-- Case-insensitive literal-prefix match: `pat` must be given in lowercase;
on success return the unconsumed rest. -/
def ciPrefixStep : List Char → List Char → Option (List Char)
  | [], l => some l
  | _ :: _, [] => none
  | p :: ps, c :: cs => if c.toLower == p then ciPrefixStep ps cs else none

/-- First-match-wins case-insensitive alternation over literal strings. -/
def ciAlt : List String → List Char → Option (List Char)
  | [], _ => none
  | p :: ps, l =>
    match ciPrefixStep p.data l with
    | some r => some r
    | none => ciAlt ps l

/-- Consume `\s+` (at least one whitespace character, maximal run). -/
def afterSpaces1 (r : List Char) : Option (List Char) :=
  match r with
  | c :: cs => if isSpaceChar c then some (cs.dropWhile isSpaceChar) else none
  | [] => none

/-- Length of the maximal leading run of word-like characters. -/
def wordLikeRunLen (l : List Char) : Nat :=
  (l.takeWhile isWordLikeChar).length

/-- Last character of the candidate token must be a `\w` character for the
`\b` boundary before the separator class to hold. -/
def lastIsWord (t : List Char) : Bool :=
  match t.getLast? with
  | some c => isWordChar c
  | none => false

/-- First character of the remainder must belong to `[\s,:-]` (the `+`
requires at least one such character). -/
def firstIsSep (r : List Char) : Bool :=
  match r with
  | c :: _ => isSepChar c
  | [] => false

/-- Backtracking over the greedy token length of
`^([A-Za-z][A-Za-z0-9_\-]{2,})\b[\s,:-]+(.*)$`: try token lengths from the
maximal word-like run downwards (minimum 3).  A length matches when the
token ends in a `\w` character (so the `\b` can be satisfied by the
following separator) and a separator character follows; the separator run
is then consumed greedily. -/
def tryTokenLen (s : List Char) : Nat → Option (List Char × List Char)
  | 0 => none
  | k + 1 =>
    if k + 1 < 3 then none
    else
      let t := s.take (k + 1)
      let r := s.drop (k + 1)
      if lastIsWord t && firstIsSep r then some (t, r.dropWhile isSepChar)
      else tryTokenLen s k

/-- Leading tokens presumed not to be usernames (case-sensitive set). -/
def authorBlacklist : List String :=
  ["Hi", "Has", "I", "We", "Thanks", "Hey", "Hello"]

/-- Mirror of `extractAuthorFromContent`: match the content against
`/^([A-Za-z][A-Za-z0-9_\-]{2,})\b[\s,:-]+(.*)$/`; on a match whose token is
not blacklisted, return the token as author and the trimmed remainder as
content, otherwise return the content unchanged with no author. -/
def extractAuthorFromContent (content : String) : Option String × String :=
  match content.data with
  | [] => (none, content)
  | c :: cs =>
    if c.isAlpha then
      match tryTokenLen (c :: cs) (wordLikeRunLen (c :: cs)) with
      | some (t, rest) =>
        let cand := String.mk t
        if authorBlacklist.contains cand then (none, content)
        else (some cand, trimString (String.mk rest))
      | none => (none, content)
    else (none, content)

/-- Known title/author/time strings passed alongside raw text; `none` models
a JavaScript `undefined` field. -/
structure CleanCtx where
  title : Option String := none
  author : Option String := none
  time : Option String := none

/-- Mirror of `ctx.title && line === ctx.title`: an absent or empty context
string never matches (it is falsy), otherwise the line must be equal. -/
def ctxLineEq (o : Option String) (l : List Char) : Bool :=
  match o with
  | none => false
  | some t => t != "" && l == t.data

/-- The fixed noise vocabulary dropped when a whole line matches it
case-insensitively. -/
def forbiddenLines : List String :=
  ["tag", "like", "reply", "copy link", "follow", "report",
   "marked as solution", "solved"]

/-- Role tokens that must not appear inside content lines. -/
def roleTokens : List String :=
  ["contributor", "ambassador", "support team"]

/-- Mirror of `/^\d{1,4}$/`: a bare counter line of one to four digits. -/
def isBareSmallInt (l : List Char) : Bool :=
  !l.isEmpty && decide (l.length ≤ 4) && l.all Char.isDigit

/-- Mirror of `/^\d+\s+Repl/i`: reply-count lines such as `"23 Replies"`. -/
def startsReplyCount (l : List Char) : Bool :=
  match l with
  | c :: _ =>
    if c.isDigit then
      match afterSpaces1 (l.dropWhile Char.isDigit) with
      | some r => (ciPrefixStep "repl".data r).isSome
      | none => false
    else false
  | [] => false

/-- Tail `\s+sorted\s+by` of the `Replies sorted by` pattern. -/
def sortedByTailTest (r : List Char) : Bool :=
  match afterSpaces1 r with
  | none => false
  | some a =>
    match ciPrefixStep "sorted".data a with
    | none => false
    | some b =>
      match afterSpaces1 b with
      | none => false
      | some c2 => (ciPrefixStep "by".data c2).isSome

/-- Match of `/Replies?\s+sorted\s+by/i` starting at this position (the `s`
is optional and tried greedily first). -/
def repliesSortedAt (l : List Char) : Bool :=
  match ciPrefixStep "replie".data l with
  | none => false
  | some r0 =>
    match r0 with
    | c :: cs =>
      if c.toLower == 's' then sortedByTailTest cs || sortedByTailTest r0
      else sortedByTailTest r0
    | [] => sortedByTailTest r0

/-- Search of `/Replies?\s+sorted\s+by/i` anywhere in the line. -/
def containsRepliesSorted (l : List Char) : Bool :=
  searchAnyPos repliesSortedAt l

/-- Match of `/sorted\s+by\s+(most|newest|oldest)/i` at this position. -/
def sortedByMnoAt (l : List Char) : Bool :=
  match ciPrefixStep "sorted".data l with
  | none => false
  | some a =>
    match afterSpaces1 a with
    | none => false
    | some b =>
      match ciPrefixStep "by".data b with
      | none => false
      | some c2 =>
        match afterSpaces1 c2 with
        | none => false
        | some d => (ciAlt ["most", "newest", "oldest"] d).isSome

/-- Search of `/sorted\s+by\s+(most|newest|oldest)/i` anywhere. -/
def containsSortedByMno (l : List Char) : Bool :=
  searchAnyPos sortedByMnoAt l

/-- Mirror of `/^(most|newest|oldest)\s+(liked|recent)/i`. -/
def startsMnoLikedRecent (l : List Char) : Bool :=
  match ciAlt ["most", "newest", "oldest"] l with
  | none => false
  | some r =>
    match afterSpaces1 r with
    | none => false
    | some r2 => (ciAlt ["liked", "recent"] r2).isSome

/-- The per-line keep decision of `cleanLines`: a line survives when none of
the drop rules fires (echoed title/author/time, noise vocabulary, bare
counter, role token, reply-count or sort-order UI text). -/
def keepLine (ctx : CleanCtx) (l : List Char) : Bool :=
  let lower := l.map Char.toLower
  !ctxLineEq ctx.title l && !ctxLineEq ctx.author l && !ctxLineEq ctx.time l
  && !forbiddenLines.contains (String.mk lower)
  && !isBareSmallInt l
  && !roleTokens.any (fun t => containsSeq t.data lower)
  && !startsReplyCount l
  && !containsRepliesSorted l
  && !containsSortedByMno l
  && !startsMnoLikedRecent l

/-- A single-pattern global replace step: given the boundary flag for the
previous original character and the current suffix, a matcher either
consumes a non-empty match (returning the rest and the wordness of the last
consumed character) or fails. -/
def Matcher : Type :=
  Bool → List Char → Option (List Char × Bool)

/-- Left-to-right global regex replace with `' '` as replacement, as in
`String.prototype.replace` with a `/g` pattern; scanning resumes right
after each match.  Fuel is the remaining input length. -/
def scanReplace (m : Matcher) : Nat → Bool → List Char → List Char
  | 0, _, l => l
  | _ + 1, _, [] => []
  | fuel + 1, pw, c :: cs =>
    match m pw (c :: cs) with
    | some a => ' ' :: scanReplace m fuel a.2 a.1
    | none => c :: scanReplace m fuel (isWordChar c) cs

def applyReplace (m : Matcher) (l : List Char) : List Char :=
  scanReplace m l.length false l

/-- `\b` after a literal: the next character must not be a `\w` character. -/
def boundaryOk (r : List Char) : Bool :=
  match r with
  | c :: _ => !isWordChar c
  | [] => true

/-- Matcher for `/\bLike\b(?:\s*\d+)?/gi`. -/
def matchLike : Matcher := fun pw l =>
  if pw then none
  else
    match ciPrefixStep "like".data l with
    | none => none
    | some rest =>
      if boundaryOk rest then
        let sp := rest.dropWhile isSpaceChar
        let ds := sp.takeWhile Char.isDigit
        if ds.isEmpty then some (rest, true)
        else some (sp.dropWhile Char.isDigit, true)
      else none

/-- Matcher for `/\bReply\b/gi`. -/
def matchReplyWord : Matcher := fun pw l =>
  if pw then none
  else
    match ciPrefixStep "reply".data l with
    | none => none
    | some rest => if boundaryOk rest then some (rest, true) else none

/-- Matcher for `/\b\d+\s+Repl(?:y|ies)?\b/gi`; the optional group tries
`y`, then `ies`, then nothing, each followed by the `\b` check. -/
def matchNumRepl : Matcher := fun pw l =>
  if pw then none
  else
    match l with
    | [] => none
    | c :: _ =>
      if c.isDigit then
        match afterSpaces1 (l.dropWhile Char.isDigit) with
        | none => none
        | some r2 =>
          match ciPrefixStep "repl".data r2 with
          | none => none
          | some r3 =>
            (match r3 with
             | d :: ds => if d.toLower == 'y' && boundaryOk ds then some (ds, true) else none
             | [] => none)
            <|> (match ciPrefixStep "ies".data r3 with
                 | some r4 => if boundaryOk r4 then some (r4, true) else none
                 | none => none)
            <|> (if boundaryOk r3 then some (r3, true) else none)
      else none

/-- Tail `\s+sorted\s+by\s+\w+` shared by the inline `Replies sorted by`
pattern; the final `\w+` is consumed greedily and must be non-empty. -/
def sortedTailRepl (r : List Char) : Option (List Char × Bool) :=
  match afterSpaces1 r with
  | none => none
  | some a =>
    match ciPrefixStep "sorted".data a with
    | none => none
    | some b =>
      match afterSpaces1 b with
      | none => none
      | some c2 =>
        match ciPrefixStep "by".data c2 with
        | none => none
        | some d =>
          match afterSpaces1 d with
          | none => none
          | some e =>
            let ws := e.takeWhile isWordChar
            if ws.isEmpty then none else some (e.dropWhile isWordChar, true)

/-- Matcher for `/\bReplies?\s+sorted\s+by\s+\w+/gi`. -/
def matchRepliesSorted : Matcher := fun pw l =>
  if pw then none
  else
    match ciPrefixStep "replie".data l with
    | none => none
    | some r0 =>
      match r0 with
      | c :: cs =>
        if c.toLower == 's' then
          match sortedTailRepl cs with
          | some a => some a
          | none => sortedTailRepl r0
        else sortedTailRepl r0
      | [] => sortedTailRepl r0

/-- Matcher for `/\bsorted\s+by\s+(most|newest|oldest)\s+\w*/gi`; the final
`\w*` may be empty, in which case the last consumed character is the
whitespace before it. -/
def matchSortedBy : Matcher := fun pw l =>
  if pw then none
  else
    match ciPrefixStep "sorted".data l with
    | none => none
    | some a =>
      match afterSpaces1 a with
      | none => none
      | some b =>
        match ciPrefixStep "by".data b with
        | none => none
        | some b2 =>
          match afterSpaces1 b2 with
          | none => none
          | some c0 =>
            match ciAlt ["most", "newest", "oldest"] c0 with
            | none => none
            | some c2 =>
              match afterSpaces1 c2 with
              | none => none
              | some d =>
                let ws := d.takeWhile isWordChar
                some (d.dropWhile isWordChar, !ws.isEmpty)

/-- Matcher for `/[\r\n\t]+/g` (no boundary requirement). -/
def matchCrlfTab : Matcher := fun _ l =>
  match l with
  | c :: _ => if isCrlfTabChar c then some (l.dropWhile isCrlfTabChar, false) else none
  | [] => none

/-- Matcher for `/\s{2,}/g`: at least two whitespace characters, consumed
maximally. -/
def matchMultiSpace : Matcher := fun _ l =>
  match l with
  | c :: d :: _ =>
    if isSpaceChar c && isSpaceChar d then some (l.dropWhile isSpaceChar, false)
    else none
  | _ => none

/-- Mirror of `normalizeWhitespace` on character lists: collapse
`[\r\n\t]+` runs to a space, collapse multi-whitespace, trim. -/
def normalizeWhitespaceCore (l : List Char) : List Char :=
  trimChars (applyReplace matchMultiSpace (applyReplace matchCrlfTab l))

/-- Mirror of `normalizeWhitespace`. -/
def normalizeWhitespace (s : String) : String :=
  String.mk (normalizeWhitespaceCore s.data)

/-- The inline post-join cleanup chain of `cleanLines`, in source order:
like/reply widget residue, inline reply counts, inline sort labels, then
whitespace collapsing. -/
def inlineCleanup (l : List Char) : List Char :=
  applyReplace matchMultiSpace
    (applyReplace matchSortedBy
      (applyReplace matchRepliesSorted
        (applyReplace matchNumRepl
          (applyReplace matchReplyWord
            (applyReplace matchLike l)))))

/-- Mirror of `cleanLines` on character lists: split into trimmed non-empty
lines, drop noise lines, join with single spaces, run the inline cleanup,
then normalize whitespace. -/
def cleanLinesCore (raw : List Char) (ctx : CleanCtx) : List Char :=
  let lines := ((splitLines raw).map trimChars).filter (fun l => !l.isEmpty)
  let kept := lines.filter (keepLine ctx)
  normalizeWhitespaceCore (inlineCleanup (joinWith ' ' kept))

/-- Mirror of `cleanLines`. -/
def cleanLines (raw : String) (ctx : CleanCtx) : String :=
  String.mk (cleanLinesCore raw.data ctx)

/-- One responding post, as exported. -/
structure Reply where
  author : String
  time : String
  content : String
  likes : Nat
deriving DecidableEq

/-- The fully resolved discussion record. -/
structure DiscussionDetail where
  title : String
  url : String
  author : String
  authorRole : String
  time : String
  content : String
  views : Nat
  likes : Nat
  comments : Nat
  replies : List Reply
deriving DecidableEq

/-- One summary row captured from a listing page. -/
structure DiscussionSummary where
  title : String
  url : String
  author : String
  time : String
  views : Nat
  likes : Nat
  comments : Nat
deriving DecidableEq

/-- Raw per-candidate reply fields as read from the rendered page (the
author/time strings are already trimmed there, possibly empty). -/
structure RawReply where
  author : String
  role : String
  time : String
  content : String
  likes : Nat
deriving DecidableEq

/-- Raw main-post fields as read from the rendered page; `none` models a
selector returning `null`. -/
structure RawMain where
  title : Option String
  mainAuthor : Option String
  mainTime : Option String
  mainRole : Option String
  mainContentRaw : String
  viewCount : Nat

/-- Mirror of `x?.trim() || ""`. -/
def optTrimOr (o : Option String) : String :=
  match o with
  | some s => trimString s
  | none => ""

/-- Per-reply processing of the Detail Extractor: clean the content against
the reply's own author/time strings, then, when no structural author was
found and the cleaned content is non-empty, run author inference; an
inferred author replaces the empty author and a non-empty inferred
remainder replaces the content. -/
def processReply (r : RawReply) : Reply :=
  let cleaned := cleanLines r.content ⟨none, some r.author, some r.time⟩
  let a0 := trimString r.author
  let pair :=
    if a0 == "" && cleaned != "" then
      let inf := extractAuthorFromContent cleaned
      (match inf.fst with
       | some x => if x != "" then x else a0
       | none => a0,
       if inf.snd != "" then inf.snd else cleaned)
    else (a0, cleaned)
  { author := pair.fst, time := r.time, content := pair.snd, likes := r.likes }

/-- Mirror of the drop-empties filter: keep a reply when its author or its
content is non-empty after trimming. -/
def keepReply (r : Reply) : Bool :=
  (decide (r.author ≠ "") && decide (trimString r.author ≠ ""))
  || (decide (r.content ≠ "") && decide (trimString r.content ≠ ""))

/-- Cleaned and filtered reply list, before reconciliation. -/
def buildCleanReplies (repliesRaw : List RawReply) : List Reply :=
  (repliesRaw.map processReply).filter keepReply

/-- Reply Reconciler: truncate to the declared count when one was found on
the page, otherwise keep the list as extracted. -/
def limitReplies (expectedReplies : Option Nat) (replies : List Reply) : List Reply :=
  match expectedReplies with
  | some n => replies.take n
  | none => replies

/-- The pure tail of `scrapeDiscussionDetail`, from the raw page reads to
the returned record: main-content cleaning and author inference, reply
cleaning/filtering, reconciliation against the declared count, and record
assembly (likes fixed at 0, comments set to the final list length). -/
def scrapeDiscussionDetailPure (url : String) (m : RawMain)
    (repliesRaw : List RawReply) (expectedReplies : Option Nat) : DiscussionDetail :=
  let ctx : CleanCtx :=
    ⟨m.title.map trimString, m.mainAuthor.map trimString, m.mainTime.map trimString⟩
  let mc0 := cleanLines m.mainContentRaw ctx
  let a0 := trimString (m.mainAuthor.getD "")
  let pair :=
    if a0 == "" && mc0 != "" then
      let inf := extractAuthorFromContent mc0
      (match inf.fst with
       | some x => if x != "" then x else a0
       | none => a0,
       if inf.snd != "" then inf.snd else mc0)
    else (a0, mc0)
  let limited := limitReplies expectedReplies (buildCleanReplies repliesRaw)
  { title := optTrimOr m.title
    url := url
    author := pair.fst
    authorRole := normalizeWhitespace (m.mainRole.getD "")
    time := optTrimOr m.mainTime
    content := trimString pair.snd
    views := m.viewCount
    likes := 0
    comments := limited.length
    replies := limited }

/-- Lookup in the insertion-ordered dedup store (association list keyed by
URL, first binding wins). -/
def storeLookup (store : List (String × DiscussionSummary)) (u : String) :
    Option DiscussionSummary :=
  match store with
  | [] => none
  | (k, v) :: rest => if k = u then some v else storeLookup rest u

/-- Mirror of `if (s.url && !collected.has(s.url)) collected.set(s.url, s)`:
insert at the end only for a non-empty, not-yet-present URL. -/
def insertSummary (store : List (String × DiscussionSummary))
    (s : DiscussionSummary) : List (String × DiscussionSummary) :=
  if s.url ≠ "" ∧ storeLookup store s.url = none then store ++ [(s.url, s)]
  else store

/-- One listing-page extraction pass feeding the dedup store. -/
def collectFromCurrentPage (store : List (String × DiscussionSummary))
    (summaries : List DiscussionSummary) : List (String × DiscussionSummary) :=
  summaries.foldl insertSummary store

/-- A whole crawl: every batch of summary rows produced by an initial load,
a load-more click, a scroll step or a later page, folded into the store in
sighting order. -/
def collectAcrossPages (batches : List (List DiscussionSummary)) :
    List (String × DiscussionSummary) :=
  batches.foldl collectFromCurrentPage []

/-- Abstract page collaborator for the Content Revealer: one `round`
activates every currently-visible reveal control once and reports the
activation count; `scroll` is the small per-round scroll step. -/
structure PageModel (σ : Type) where
  round : σ → σ × Nat
  scroll : σ → σ

/-- The bounded convergence loop of `expandAllContent`: up to the fuel many
rounds, each followed by the scroll step; a round with zero activations
breaks out.  Returns the final page state, the total number of activations
and the number of rounds executed. -/
def expandLoop (p : PageModel σ) : Nat → σ → σ × Nat × Nat
  | 0, s => (s, 0, 0)
  | n + 1, s =>
    let rk := p.round s
    let s2 := p.scroll rk.1
    if rk.2 = 0 then (s2, 0, 1)
    else
      let tail := expandLoop p n s2
      (tail.1, rk.2 + tail.2.1, tail.2.2 + 1)

/-- Mirror of `expandAllContent` with its fixed 50-round budget. -/
def expandAllContent (p : PageModel σ) (s : σ) : σ × Nat × Nat :=
  expandLoop p 50 s

/-- Driver overwrite step: the listing row is authoritative for the
view/like counters of the resolved record. -/
def overwriteCounters (fd : DiscussionDetail) (d : DiscussionSummary) : DiscussionDetail :=
  { fd with views := d.views, likes := d.likes }

/-- Outcome of one iteration of the driver loop over collected summaries:
either a record appended to the output, or a caught failure followed by
the fixed elevated delay (5000 ms). -/
inductive ItemOutcome (ε : Type) where
  | collected (detail : DiscussionDetail)
  | skipped (err : ε) (extraDelayMs : Nat)

/-- One driver iteration: `fetch` abstracts `scrapeDiscussionDetail` on the
live page (it may throw, modelled by `Except`); a success has its counters
overwritten from the summary, a failure is caught and logged with the
elevated delay. -/
def driveItem (fetch : DiscussionSummary → Except ε DiscussionDetail)
    (d : DiscussionSummary) : ItemOutcome ε :=
  match fetch d with
  | .ok fd => .collected (overwriteCounters fd d)
  | .error e => .skipped e 5000

/-- The driver loop over every collected summary, in order. -/
def driveOutcomes (fetch : DiscussionSummary → Except ε DiscussionDetail)
    (l : List DiscussionSummary) : List (ItemOutcome ε) :=
  l.map (driveItem fetch)

def outcomeDetail : ItemOutcome ε → Option DiscussionDetail
  | .collected x => some x
  | .skipped _ _ => none

/-- The output collection `allDetails`: exactly the successful records, in
discovery order. -/
def allDetails (fetch : DiscussionSummary → Except ε DiscussionDetail)
    (l : List DiscussionSummary) : List DiscussionDetail :=
  (driveOutcomes fetch l).filterMap outcomeDetail

/-- Concrete listing rows for witness instantiations. -/
def wSumA : DiscussionSummary := ⟨"A", "ua", "alice", "t1", 10, 1, 0⟩

def wSumB : DiscussionSummary := ⟨"B", "ub", "bob", "t2", 20, 2, 1⟩

def wSumC1 : DiscussionSummary := ⟨"C", "uc", "carol", "t3", 30, 3, 2⟩

def wSumC2 : DiscussionSummary := ⟨"C repeat", "uc", "carol", "t9", 99, 9, 9⟩

def wSumD : DiscussionSummary := ⟨"D", "ud", "dave", "t4", 40, 4, 3⟩

def wSumBad : DiscussionSummary := ⟨"Bad", "bad", "eve", "t5", 5, 5, 5⟩

/-- Concrete raw main-post fields for witness instantiations. -/
def wMain : RawMain := ⟨some "T", some "alice", some "now", none, "Great body text", 7⟩

/-- Concrete raw replies for witness instantiations. -/
def wRawReplies : List RawReply :=
  [⟨"bob", "", "t6", "Helpful answer body", 2⟩,
   ⟨"carol", "", "t7", "Another answer body", 0⟩]

/-- Concrete resolved record for the driver witnesses. -/
def wDetail : DiscussionDetail := ⟨"T", "u", "a", "", "t", "c", 1, 2, 0, []⟩

/-- Concrete fallible fetch: fails exactly on the `"bad"` URL. -/
def wFetch : DiscussionSummary → Except String DiscussionDetail :=
  fun s => if s.url = "bad" then .error "nav" else .ok wDetail

/-- A page with no visible reveal controls in any state. -/
def wPageDone : PageModel Unit := ⟨fun _ => ((), 0), fun s => s⟩

/-- A page where every round activates one control (never converges). -/
def wPageBusy : PageModel Nat := ⟨fun n => (n + 1, 1), fun n => n⟩

/-- Concrete raw lines for the cleaning witness: genuine body lines
interleaved with an isolated `Like` line, a reply-count line and a
sort-order line. -/
def wLines : List (List Char) :=
  ["We upgraded the plan".data, "Like".data, "23 Replies".data,
   "Replies sorted by Most Liked".data, "It works now".data]

/-- The expected cleaned output of the witness scenario: the genuine body
lines joined by single spaces. -/
def wJoined : List Char := "We upgraded the plan It works now".data

/-- Claim C1: with a declared reply count `n`, the final replies list is the
extracted list truncated by `take n` (so its length is at most `n` and the
earliest-discovered order is preserved); with no declared count the list is
kept unmodified; and the `comments` field always equals the length of the
final list, never the raw declared count. -/
theorem claimC1 :
    ∀ (url : String) (m : RawMain) (raws : List RawReply) (expected : Option Nat),
      (∀ n, expected = some n →
        (scrapeDiscussionDetailPure url m raws expected).replies.length ≤ n
        ∧ (scrapeDiscussionDetailPure url m raws expected).replies
          = (buildCleanReplies raws).take n)
      ∧ (expected = none →
        (scrapeDiscussionDetailPure url m raws expected).replies = buildCleanReplies raws)
      ∧ (scrapeDiscussionDetailPure url m raws expected).comments
        = (scrapeDiscussionDetailPure url m raws expected).replies.length := by
  intro url m raws expected
  have hrep : (scrapeDiscussionDetailPure url m raws expected).replies
      = limitReplies expected (buildCleanReplies raws) := rfl
  refine ⟨?_, ?_, rfl⟩
  · intro n hn
    subst hn
    rw [hrep]
    refine ⟨?_, rfl⟩
    simp [limitReplies, List.length_take]
  · intro hn
    subst hn
    rw [hrep]
    rfl

/-- Witness for C1 at a concrete discussion with two extracted replies and
declared count 1. -/
theorem claimC1_witness :
    (scrapeDiscussionDetailPure "u" wMain wRawReplies (some 1)).replies.length ≤ 1
    ∧ (scrapeDiscussionDetailPure "u" wMain wRawReplies (some 1)).comments
      = (scrapeDiscussionDetailPure "u" wMain wRawReplies (some 1)).replies.length :=
  ⟨((claimC1 "u" wMain wRawReplies (some 1)).1 1 rfl).1,
   (claimC1 "u" wMain wRawReplies (some 1)).2.2⟩

/-- Claim C3: the Content Revealer is idempotent — on a page state with no
remaining visible controls (a fully revealed, unchanged page, in particular
the state a converged first run ends in) it performs zero activations and
returns after its first round; any round that activates nothing exits the
loop immediately; and when every round activates something the loop runs
its full budget and still returns normally. -/
theorem claimC3 :
    (∀ (σ : Type) (p : PageModel σ) (s t : σ) (a r : Nat),
      expandAllContent p s = (t, a, r) → p.round t = (t, 0) →
      expandAllContent p t = (p.scroll t, 0, 1))
    ∧ (∀ (σ : Type) (p : PageModel σ) (n : Nat) (s s1 : σ),
      p.round s = (s1, 0) → expandLoop p (n + 1) s = (p.scroll s1, 0, 1))
    ∧ (∀ (σ : Type) (p : PageModel σ) (n : Nat) (s : σ),
      (∀ u, 0 < (p.round u).2) → (expandLoop p n s).2.2 = n) := by
  have h2 : ∀ (σ : Type) (p : PageModel σ) (n : Nat) (s s1 : σ),
      p.round s = (s1, 0) → expandLoop p (n + 1) s = (p.scroll s1, 0, 1) := by
    intro σ p n s s1 h
    simp [expandLoop, h]
  refine ⟨?_, h2, ?_⟩
  · intro σ p s t a r _ hconv
    show expandLoop p (49 + 1) t = (p.scroll t, 0, 1)
    exact h2 σ p 49 t t hconv
  · intro σ p n s h
    induction n generalizing s with
    | zero => simp [expandLoop]
    | succ k ih =>
      have h0 : ¬ (p.round s).2 = 0 := Nat.pos_iff_ne_zero.mp (h s)
      simp [expandLoop, h0, ih]

/-- Witness for C3: a page with no visible controls converges in one round
with zero activations, and a never-converging page uses the full budget. -/
theorem claimC3_witness :
    expandAllContent wPageDone () = (wPageDone.scroll (), 0, 1)
    ∧ (expandLoop wPageBusy 50 0).2.2 = 50 :=
  ⟨claimC3.1 Unit wPageDone () () 0 1 rfl rfl,
   claimC3.2.2 Nat wPageBusy 50 0 (fun _ => Nat.one_pos)⟩

/-- Claim C6: every reply in the final list has a non-empty trimmed author
or a non-empty trimmed content, and a candidate whose author and content
are both empty (or whitespace-only) after cleaning and inference never
appears in the final replies list. -/
theorem claimC6 :
    (∀ (url : String) (m : RawMain) (raws : List RawReply) (expected : Option Nat)
      (r : Reply), r ∈ (scrapeDiscussionDetailPure url m raws expected).replies →
      trimString r.author ≠ "" ∨ trimString r.content ≠ "")
    ∧ (∀ (url : String) (m : RawMain) (raws : List RawReply) (expected : Option Nat)
      (r : Reply), trimString r.author = "" → trimString r.content = "" →
      r ∉ (scrapeDiscussionDetailPure url m raws expected).replies) := by
  have key : ∀ (url : String) (m : RawMain) (raws : List RawReply) (expected : Option Nat)
      (r : Reply), r ∈ (scrapeDiscussionDetailPure url m raws expected).replies →
      trimString r.author ≠ "" ∨ trimString r.content ≠ "" := by
    intro url m raws expected r hr
    have hrep : (scrapeDiscussionDetailPure url m raws expected).replies
        = limitReplies expected (buildCleanReplies raws) := rfl
    rw [hrep] at hr
    have hr2 : r ∈ (raws.map processReply).filter keepReply := by
      cases expected with
      | some n => exact List.take_subset n _ hr
      | none => exact hr
    have hk : keepReply r = true := (List.mem_filter.mp hr2).2
    simp only [keepReply, Bool.or_eq_true, Bool.and_eq_true, decide_eq_true_eq] at hk
    exact hk.imp And.right And.right
  refine ⟨key, ?_⟩
  intro url m raws expected r h1 h2 hmem
  exact (key url m raws expected r hmem).elim (fun h => h h1) (fun h => h h2)

/-- Witness for C6: the all-empty reply is not among the final replies of a
concrete extraction. -/
theorem claimC6_witness :
    (⟨"", "t", "", 0⟩ : Reply) ∉ (scrapeDiscussionDetailPure "u" wMain wRawReplies none).replies :=
  claimC6.2 "u" wMain wRawReplies none ⟨"", "t", "", 0⟩ rfl rfl

/-- Claim C7: a per-discussion fetch failure is caught at the discussion
granularity — the failing discussion is logged as skipped with the elevated
5000 ms delay and omitted from the output, while every discussion before
and after it is still processed; the run is not aborted. -/
theorem claimC7 :
    ∀ (ε : Type) (fetch : DiscussionSummary → Except ε DiscussionDetail)
      (pre post : List DiscussionSummary) (d : DiscussionSummary) (e : ε),
      fetch d = Except.error e →
      driveOutcomes fetch (pre ++ d :: post)
        = driveOutcomes fetch pre ++ ItemOutcome.skipped e 5000 :: driveOutcomes fetch post
      ∧ allDetails fetch (pre ++ d :: post) = allDetails fetch pre ++ allDetails fetch post := by
  intro ε fetch pre post d e h
  have h1 : driveItem fetch d = ItemOutcome.skipped e 5000 := by
    simp [driveItem, h]
  constructor
  · simp [driveOutcomes, h1]
  · simp [allDetails, driveOutcomes, h1, outcomeDetail]

/-- Witness for C7 at a concrete three-item run whose middle fetch throws. -/
theorem claimC7_witness :
    driveOutcomes wFetch ([wSumA] ++ wSumBad :: [wSumD])
      = driveOutcomes wFetch [wSumA]
        ++ ItemOutcome.skipped "nav" 5000 :: driveOutcomes wFetch [wSumD]
    ∧ allDetails wFetch ([wSumA] ++ wSumBad :: [wSumD])
      = allDetails wFetch [wSumA] ++ allDetails wFetch [wSumD] :=
  claimC7 String wFetch [wSumA] [wSumD] wSumBad "nav" rfl

/-- Claim C8: the Detail Extractor always reports `likes = 0` for the main
post, and the driver overwrite replaces exactly the `views` and `likes`
fields with the listing summary's values, leaving title, url, author,
authorRole, time, content, comments and replies unchanged. -/
theorem claimC8 :
    (∀ (url : String) (m : RawMain) (raws : List RawReply) (expected : Option Nat),
      (scrapeDiscussionDetailPure url m raws expected).likes = 0)
    ∧ (∀ (fd : DiscussionDetail) (d : DiscussionSummary),
      (overwriteCounters fd d).views = d.views
      ∧ (overwriteCounters fd d).likes = d.likes
      ∧ (overwriteCounters fd d).title = fd.title
      ∧ (overwriteCounters fd d).url = fd.url
      ∧ (overwriteCounters fd d).author = fd.author
      ∧ (overwriteCounters fd d).authorRole = fd.authorRole
      ∧ (overwriteCounters fd d).time = fd.time
      ∧ (overwriteCounters fd d).content = fd.content
      ∧ (overwriteCounters fd d).comments = fd.comments
      ∧ (overwriteCounters fd d).replies = fd.replies) :=
  ⟨fun _ _ _ _ => rfl,
   fun _ _ => ⟨rfl, rfl, rfl, rfl, rfl, rfl, rfl, rfl, rfl, rfl⟩⟩

/-- Claim C9: the post-join cleanup deletes every standalone word `Like`
(optionally with trailing digits) and every standalone word `Reply`, even
inside genuine prose, so some genuine sentences are altered. -/
theorem claimC9 :
    cleanLines "I like this feature" {} = "I this feature"
    ∧ cleanLines "Please reply soon everyone" {} = "Please soon everyone"
    ∧ cleanLines "We like 42 apples" {} = "We apples" := by
  refine ⟨?_, ?_, ?_⟩ <;> decide

/-- Claim C10: the author-inference blacklist is case-sensitive — lowercase
variants of blacklisted openers are accepted as authors and stripped, while
the capitalized variants are rejected. -/
theorem claimC10 :
    extractAuthorFromContent "hello everyone" = (some "hello", "everyone")
    ∧ extractAuthorFromContent "Hello everyone" = (none, "Hello everyone")
    ∧ extractAuthorFromContent "thanks for the help" = (some "thanks", "for the help")
    ∧ extractAuthorFromContent "Thanks for the help" = (none, "Thanks for the help") := by
  refine ⟨?_, ?_, ?_, ?_⟩ <;> decide

theorem storeLookup_append (st : List (String × DiscussionSummary)) (k : String)
    (v : DiscussionSummary) (u : String) :
    storeLookup (st ++ [(k, v)]) u
      = match storeLookup st u with
        | some w => some w
        | none => if k = u then some v else none := by
  induction st with
  | nil => simp [storeLookup]
  | cons p rest ih =>
    obtain ⟨pk, pv⟩ := p
    by_cases h : pk = u <;> simp [storeLookup, h, ih]

theorem storeLookup_eq_none (st : List (String × DiscussionSummary)) (u : String) :
    storeLookup st u = none ↔ u ∉ st.map Prod.fst := by
  induction st with
  | nil => simp [storeLookup]
  | cons p rest ih =>
    obtain ⟨pk, pv⟩ := p
    by_cases h : pk = u
    · simp [storeLookup, h, ih, eq_comm]
    · simp [storeLookup, h, Ne.symm h, ih]

theorem foldl_insert_lookup (l : List DiscussionSummary) :
    ∀ (st : List (String × DiscussionSummary)) (u : String), u ≠ "" →
      storeLookup (l.foldl insertSummary st) u
        = match storeLookup st u with
          | some w => some w
          | none => l.find? (fun s => decide (s.url = u)) := by
  induction l with
  | nil =>
    intro st u _
    cases hst : storeLookup st u <;> simp [hst, List.find?]
  | cons s l ih =>
    intro st u hu
    rw [List.foldl_cons, ih _ u hu]
    by_cases hc : s.url ≠ "" ∧ storeLookup st s.url = none
    · rw [show insertSummary st s = st ++ [(s.url, s)] from by simp [insertSummary, hc]]
      rw [storeLookup_append]
      cases hst : storeLookup st u
      · by_cases hsu : s.url = u <;> simp [List.find?_cons, hsu]
      · simp
    · rw [show insertSummary st s = st from by simp [insertSummary, hc]]
      cases hst : storeLookup st u
      · by_cases hsu : s.url = u
        · exfalso
          rw [Decidable.not_and_iff_or_not] at hc
          rcases hc with hc | hc
          · exact hc (by rw [hsu]; exact hu)
          · rw [hsu, hst] at hc; exact hc rfl
        · simp [List.find?_cons, hsu]
      · simp

theorem foldl_insert_keys (l : List DiscussionSummary) :
    ∀ (st : List (String × DiscussionSummary)),
      (st.map Prod.fst).Nodup → (∀ k ∈ st.map Prod.fst, k ≠ "") →
      ((l.foldl insertSummary st).map Prod.fst).Nodup
      ∧ ∀ k ∈ (l.foldl insertSummary st).map Prod.fst, k ≠ "" := by
  induction l with
  | nil => intro st h1 h2; exact ⟨h1, h2⟩
  | cons s l ih =>
    intro st h1 h2
    rw [List.foldl_cons]
    by_cases hc : s.url ≠ "" ∧ storeLookup st s.url = none
    · rw [show insertSummary st s = st ++ [(s.url, s)] from by simp [insertSummary, hc]]
      refine ih _ ?_ ?_
      · rw [List.map_append, List.nodup_append]
        refine ⟨h1, by simp, ?_⟩
        intro k hk hk2
        simp at hk2
        subst hk2
        exact ((storeLookup_eq_none st s.url).mp hc.2) hk
      · intro k hk
        rw [List.map_append] at hk
        rcases List.mem_append.mp hk with hk | hk
        · exact h2 k hk
        · simp at hk; subst hk; exact hc.1
    · rw [show insertSummary st s = st from by simp [insertSummary, hc]]
      exact ih st h1 h2

theorem collect_as_flatten (batches : List (List DiscussionSummary)) :
    collectAcrossPages batches = (batches.flatten).foldl insertSummary [] := by
  have key : ∀ (bs : List (List DiscussionSummary)) (st : List (String × DiscussionSummary)),
      bs.foldl collectFromCurrentPage st = (bs.flatten).foldl insertSummary st := by
    intro bs
    induction bs with
    | nil => intro st; rfl
    | cons b bs ih =>
      intro st
      rw [List.foldl_cons, ih, List.flatten_cons, List.foldl_append]
      rfl
  exact key batches []

/-- Claim C2: across any sequence of listing-page extraction batches, the
URL-keyed dedup store holds exactly one entry per distinct non-empty URL,
carrying the field values of the first sighting of that URL (later
sightings never update an existing key), and a page `A, B, C` followed by a
page `C, D` yields exactly `A, B, C, D` with `C` from the first page. -/
theorem claimC2 :
    (∀ (batches : List (List DiscussionSummary)) (u : String), u ≠ "" →
      storeLookup (collectAcrossPages batches) u
        = (batches.flatten).find? (fun s => decide (s.url = u)))
    ∧ (∀ batches : List (List DiscussionSummary),
      ((collectAcrossPages batches).map Prod.fst).Nodup
      ∧ ∀ k ∈ (collectAcrossPages batches).map Prod.fst, k ≠ "")
    ∧ collectAcrossPages [[wSumA, wSumB, wSumC1], [wSumC2, wSumD]]
      = [("ua", wSumA), ("ub", wSumB), ("uc", wSumC1), ("ud", wSumD)] := by
  refine ⟨?_, ?_, by decide⟩
  · intro batches u hu
    rw [collect_as_flatten, foldl_insert_lookup _ [] u hu]
    rfl
  · intro batches
    rw [collect_as_flatten]
    exact foldl_insert_keys _ [] (by simp) (by simp)

/-- Witness for C2: the duplicate sighting of url `"uc"` on the second page
is ignored; the store keeps the first page's values for it. -/
theorem claimC2_witness :
    storeLookup (collectAcrossPages [[wSumA, wSumB, wSumC1], [wSumC2, wSumD]]) "uc"
      = some wSumC1 := by
  rw [claimC2.1 [[wSumA, wSumB, wSumC1], [wSumC2, wSumD]] "uc" (by decide)]
  decide

theorem splitLinesAux_cons_plain (c : Char) (rest acc : List Char)
    (h1 : c ≠ '\n') (h2 : c ≠ '\r') :
    splitLinesAux (c :: rest) acc = splitLinesAux rest (c :: acc) := by
  cases rest with
  | nil => simp [splitLinesAux, h1, h2]
  | cons d ds => simp [splitLinesAux, h1, h2]

theorem splitLinesAux_cons_newline (rest acc : List Char) :
    splitLinesAux ('\n' :: rest) acc = acc.reverse :: splitLinesAux rest [] := by
  cases rest with
  | nil => simp [splitLinesAux]
  | cons d ds => simp [splitLinesAux]

theorem splitLinesAux_all_plain (l : List Char)
    (h : ∀ x ∈ l, x ≠ '\n' ∧ x ≠ '\r') :
    ∀ acc, splitLinesAux l acc = [acc.reverse ++ l] := by
  induction l with
  | nil => intro acc; simp [splitLinesAux]
  | cons c cs ih =>
    intro acc
    have hc := h c (List.mem_cons_self c cs)
    rw [splitLinesAux_cons_plain c cs acc hc.1 hc.2,
      ih (fun x hx => h x (List.mem_cons_of_mem c hx)) (c :: acc)]
    simp

theorem splitLinesAux_break (l : List Char) :
    ∀ (t acc : List Char), (∀ x ∈ l, x ≠ '\n' ∧ x ≠ '\r') →
      splitLinesAux (l ++ '\n' :: t) acc = (acc.reverse ++ l) :: splitLinesAux t [] := by
  induction l with
  | nil =>
    intro t acc _
    rw [List.nil_append, splitLinesAux_cons_newline]
    simp
  | cons c cs ih =>
    intro t acc h
    have hc := h c (List.mem_cons_self c cs)
    rw [List.cons_append, splitLinesAux_cons_plain c (cs ++ '\n' :: t) acc hc.1 hc.2,
      ih t (c :: acc) (fun x hx => h x (List.mem_cons_of_mem c hx))]
    simp

theorem splitLines_joinWith (l : List Char) (ls : List (List Char)) :
    ∀ outer, outer = l :: ls →
      (∀ x ∈ outer, ∀ c ∈ x, c ≠ '\n' ∧ c ≠ '\r') →
      splitLines (joinWith '\n' (l :: ls)) = l :: ls := by
  induction ls generalizing l with
  | nil =>
    intro outer ho h
    subst ho
    rw [show joinWith '\n' [l] = l from rfl]
    rw [splitLines, splitLinesAux_all_plain l (h l (List.mem_cons_self l []))]
    simp
  | cons l2 ls2 ih =>
    intro outer ho h
    subst ho
    rw [show joinWith '\n' (l :: l2 :: ls2) = l ++ '\n' :: joinWith '\n' (l2 :: ls2) from rfl]
    rw [splitLines, splitLinesAux_break l (joinWith '\n' (l2 :: ls2)) []
      (h l (List.mem_cons_self l (l2 :: ls2)))]
    have := ih l2 (l2 :: ls2) rfl (fun x hx c hc => h x (List.mem_cons_of_mem l hx) c hc)
    rw [splitLines] at this
    rw [this]
    simp

theorem mapFilter_id (lines : List (List Char))
    (h : ∀ l ∈ lines, l ≠ [] ∧ trimChars l = l) :
    (lines.map trimChars).filter (fun l => !l.isEmpty) = lines := by
  induction lines with
  | nil => rfl
  | cons l ls ih =>
    have hl := h l (List.mem_cons_self l ls)
    rw [List.map_cons, hl.2, List.filter_cons,
      ih (fun x hx => h x (List.mem_cons_of_mem l hx))]
    simp [hl.1]

theorem processedSplit (lines : List (List Char))
    (h : ∀ l ∈ lines, l ≠ [] ∧ trimChars l = l ∧ '\n' ∉ l ∧ '\r' ∉ l) :
    ((splitLines (joinWith '\n' lines)).map trimChars).filter (fun l => !l.isEmpty)
      = lines := by
  cases lines with
  | nil => decide
  | cons l ls =>
    rw [splitLines_joinWith l ls (l :: ls) rfl ?side]
    case side =>
      intro x hx c hc
      have hxr := h x hx
      exact ⟨fun he => hxr.2.2.1 (he ▸ hc), fun he => hxr.2.2.2 (he ▸ hc)⟩
    exact mapFilter_id (l :: ls) (fun x hx => ⟨(h x hx).1, (h x hx).2.1⟩)

/-- Claim C5: `cleanLines` drops, before joining, every line equal to the
known title/author/time, every line case-insensitively equal to the fixed
noise vocabulary, every bare-small-integer line, every role-token line and
every reply-count/sort-order line; and on raw text whose surviving lines
are untouched by the inline cleanup stages, the output equals exactly those
genuine lines joined by single spaces. -/
theorem claimC5 :
    (∀ (ctx : CleanCtx) (t : String), ctx.title = some t → t ≠ "" →
      keepLine ctx t.data = false)
    ∧ (∀ (ctx : CleanCtx) (t : String), ctx.author = some t → t ≠ "" →
      keepLine ctx t.data = false)
    ∧ (∀ (ctx : CleanCtx) (t : String), ctx.time = some t → t ≠ "" →
      keepLine ctx t.data = false)
    ∧ (∀ (ctx : CleanCtx) (l : List Char),
      forbiddenLines.contains (String.mk (l.map Char.toLower)) = true →
      keepLine ctx l = false)
    ∧ (∀ (ctx : CleanCtx) (l : List Char), isBareSmallInt l = true →
      keepLine ctx l = false)
    ∧ (∀ (ctx : CleanCtx) (l : List Char) (t : String), t ∈ roleTokens →
      containsSeq t.data (l.map Char.toLower) = true → keepLine ctx l = false)
    ∧ (∀ (ctx : CleanCtx) (l : List Char),
      startsReplyCount l = true ∨ containsRepliesSorted l = true
      ∨ containsSortedByMno l = true ∨ startsMnoLikedRecent l = true →
      keepLine ctx l = false)
    ∧ (∀ (ctx : CleanCtx) (lines : List (List Char)) (joined : List Char),
      (∀ l ∈ lines, l ≠ [] ∧ trimChars l = l ∧ '\n' ∉ l ∧ '\r' ∉ l) →
      joined = joinWith ' ' (lines.filter (keepLine ctx)) →
      applyReplace matchLike joined = joined →
      applyReplace matchReplyWord joined = joined →
      applyReplace matchNumRepl joined = joined →
      applyReplace matchRepliesSorted joined = joined →
      applyReplace matchSortedBy joined = joined →
      applyReplace matchMultiSpace joined = joined →
      normalizeWhitespaceCore joined = joined →
      cleanLines (String.mk (joinWith '\n' lines)) ctx = String.mk joined) := by
  refine ⟨?_, ?_, ?_, ?_, ?_, ?_, ?_, ?_⟩
  · intro ctx t h1 h2
    have hb : (t != "") = true := by simp [h2]
    simp only [keepLine, ctxLineEq, h1, hb, beq_self_eq_true, Bool.and_self,
      Bool.true_and, Bool.not_true, Bool.false_and, Bool.and_false]
  · intro ctx t h1 h2
    have hb : (t != "") = true := by simp [h2]
    simp only [keepLine, ctxLineEq, h1, hb, beq_self_eq_true, Bool.and_self,
      Bool.true_and, Bool.not_true, Bool.false_and, Bool.and_false]
  · intro ctx t h1 h2
    have hb : (t != "") = true := by simp [h2]
    simp only [keepLine, ctxLineEq, h1, hb, beq_self_eq_true, Bool.and_self,
      Bool.true_and, Bool.not_true, Bool.false_and, Bool.and_false]
  · intro ctx l h
    simp only [keepLine, h, Bool.not_true, Bool.false_and, Bool.and_false]
  · intro ctx l h
    simp only [keepLine, h, Bool.not_true, Bool.false_and, Bool.and_false]
  · intro ctx l t ht hc
    have hany : roleTokens.any (fun t => containsSeq t.data (l.map Char.toLower)) = true :=
      List.any_eq_true.mpr ⟨t, ht, hc⟩
    simp only [keepLine, hany, Bool.not_true, Bool.false_and, Bool.and_false]
  · intro ctx l h
    rcases h with h | h | h | h <;>
      simp only [keepLine, h, Bool.not_true, Bool.false_and, Bool.and_false]
  · intro ctx lines joined hl hj h1 h2 h3 h4 h5 h6 h7
    have hcore : cleanLinesCore (joinWith '\n' lines) ctx = joined := by
      show normalizeWhitespaceCore (inlineCleanup (joinWith ' '
        ((((splitLines (joinWith '\n' lines)).map trimChars).filter
          (fun l => !l.isEmpty)).filter (keepLine ctx)))) = joined
      rw [processedSplit lines hl, ← hj, inlineCleanup, h1, h2, h3, h4, h5, h6, h7]
    exact congrArg String.mk hcore

/-- Witness for C5: the spec's scenario with `Like`, `23 Replies` and
`Replies sorted by Most Liked` lines interleaved with genuine body lines
cleans to exactly the genuine lines joined by single spaces. -/
theorem claimC5_witness :
    cleanLines (String.mk (joinWith '\n' wLines)) {} = String.mk wJoined :=
  claimC5.2.2.2.2.2.2.2 {} wLines wJoined (by decide) (by decide) (by decide)
    (by decide) (by decide) (by decide) (by decide) (by decide) (by decide)
